import Mathlib

/-!
Verification of the cmark-syntax highlighting core (src/lib.rs).

The Rust source is shallowly embedded: strings are lists of byte values
(`Bytes`), the `Kind` enum and `HIGHLIGHT_TAG` table are copied directly,
`write_escaped` is the byte-cursor loop from the source, and `highlight` is
the token loop, made generic over the external `logos` lexer by taking the
lexer's output (a list of tokens with byte spans) as an argument.  The
`SyntaxPreprocessor` iterator is embedded as a function from the remaining
upstream event list to the produced event plus the new remaining list.
-/

namespace CmarkSyntax

/-- Strings and string slices are modelled as lists of byte values. -/
abbrev Bytes := List Nat

/-- Bytes of an ASCII string literal (each char's code point, which for the
ASCII literals used by the source equals its UTF-8 byte). -/
def strBytes (s : String) : Bytes := s.data.map Char.toNat

/-- Rust slice expression part[a..b], made total: out-of-range indices
truncate.  The source only slices with valid monotone span bounds supplied
by the logos lexer. -/
def slice (l : Bytes) (a b : Nat) : Bytes := (l.drop a).take (b - a)

/-- The Kind enum of src/lib.rs: possible kind of a token in the
highlighted syntax. -/
inductive Kind where
  | None
  | Glyph
  | Literal
  | Identifier
  | SpecialIdentifier
  | StrongIdentifier
  | Keyword
  | Comment
deriving DecidableEq

/-- The static HIGHLIGHT_TAG table of src/lib.rs: the tag name (if any)
wrapping each Kind, indexed by the enum value. -/
def HIGHLIGHT_TAG : Kind → Option Bytes
  | Kind.None => none
  | Kind.Glyph => some (strBytes "u")
  | Kind.Literal => some (strBytes "span")
  | Kind.Identifier => some (strBytes "var")
  | Kind.SpecialIdentifier => some (strBytes "em")
  | Kind.StrongIdentifier => some (strBytes "strong")
  | Kind.Keyword => some (strBytes "b")
  | Kind.Comment => some (strBytes "i")

/-- The replacement table inside write_escaped's match: the four escaped
bytes and their entities; none for every other byte (the match's continue
arm). -/
def escapeByte (b : Nat) : Option Bytes :=
  if b = 60 then some (strBytes "&lt;")
  else if b = 62 then some (strBytes "&gt;")
  else if b = 38 then some (strBytes "&amp;")
  else if b = 34 then some (strBytes "&quot;")
  else none

/-- The loop of write_escaped in src/lib.rs: iterate over the bytes of
part with their indices, keeping the cursor of the last unemitted position
in start; on an escaped byte, flush part[start..idx] and the entity and
move the cursor past the byte.  After the loop, flush part[start..]. -/
def write_escaped_go (part : Bytes) : Bytes → Nat → Nat → Bytes → Bytes
  | [], _, start, s => s ++ part.drop start
  | b :: rest, idx, start, s =>
    match escapeByte b with
    | some replace =>
      write_escaped_go part rest (idx + 1) (idx + 1) (s ++ slice part start idx ++ replace)
    | none => write_escaped_go part rest (idx + 1) start s

/-- write_escaped of src/lib.rs: write part to the buffer s with special
HTML characters escaped. -/
def write_escaped (s : Bytes) (part : Bytes) : Bytes := write_escaped_go part part 0 0 s

/-- The specification-side description of escaping: each byte is replaced
by its entity if it is one of the four special characters, and passed
through verbatim otherwise, in order. -/
def escapeSpec : Bytes → Bytes
  | [] => []
  | b :: rest => ((escapeByte b).getD [b]) ++ escapeSpec rest

/-- The language interface the generic highlight of src/lib.rs consumes:
the trait bound Highlight + Logos supplies a sentinel token value
Token::ERROR and the pure classification function Token::kind over the
2-token window (previous token, current token). -/
structure Language (Token : Type) where
  ERROR : Token
  kind : Token → Token → Kind

/-- The window update at the top of highlight's loop in src/lib.rs:
if tokens[1] is not ERROR it moves to tokens[0]; the new token is placed
in tokens[1]. -/
def shiftWindow {Token : Type} [DecidableEq Token] (L : Language Token)
    (w : Token × Token) (token : Token) : Token × Token :=
  (if w.2 ≠ L.ERROR then w.2 else w.1, token)

/-- The bytes pushed to close the tag of a kind (nothing when the kind has
no tag), as in the if-let on HIGHLIGHT_TAG in src/lib.rs. -/
def closeTagBytes (k : Kind) : Bytes :=
  match HIGHLIGHT_TAG k with
  | some tag => strBytes "</" ++ tag ++ strBytes ">"
  | none => []

/-- The bytes pushed to open the tag of a kind (nothing when the kind has
no tag). -/
def openTagBytes (k : Kind) : Bytes :=
  match HIGHLIGHT_TAG k with
  | some tag => strBytes "<" ++ tag ++ strBytes ">"
  | none => []

/-- The while-let loop of highlight in src/lib.rs.  The logos lexer is
external; its output is passed in as the list of remaining tokens with
their spans (token, span start, span end), where the lexer guarantees
lex.slice() = source[span.start..span.end].  State: opn is the currently
open kind, last the cursor of the last emitted position, w the 2-token
window. -/
def highlightLoop {Token : Type} [DecidableEq Token] (L : Language Token) (source : Bytes) :
    List (Token × Nat × Nat) → Kind → Nat → Token × Token → Bytes → Bytes
  | [], opn, _, _, buf => buf ++ closeTagBytes opn
  | (token, s, e) :: rest, opn, last, w, buf =>
    let w2 := shiftWindow L w token
    let kind := L.kind w2.1 w2.2
    if opn ≠ kind then
      highlightLoop L source rest kind e w2
        (write_escaped
          (write_escaped (buf ++ closeTagBytes opn) (slice source last s) ++ openTagBytes kind)
          (slice source s e))
    else
      highlightLoop L source rest opn e w2 (write_escaped buf (slice source last e))

/-- highlight of src/lib.rs: highlight the code in source into buf, given
the lexer's token/span stream lexed.  Initial state: open = Kind::None,
last = 0, tokens = [Token::ERROR; 2]. -/
def highlight {Token : Type} [DecidableEq Token] (L : Language Token)
    (lexed : List (Token × Nat × Nat)) (source : Bytes) (buf : Bytes) : Bytes :=
  highlightLoop L source lexed Kind.None 0 (L.ERROR, L.ERROR) buf

/-- Abstract output items of the highlighting loop: a piece of escaped
source text, or an opening or closing tag of a kind.  Used to state the
partition and balance properties of the emitted HTML. -/
inductive Item where
  | text (s : Bytes)
  | openT (k : Kind)
  | closeT (k : Kind)
deriving DecidableEq

/-- Items emitted when closing the tag of a kind (none when the kind has
no tag). -/
def closeItems (k : Kind) : List Item :=
  match HIGHLIGHT_TAG k with
  | some _ => [Item.closeT k]
  | none => []

/-- Items emitted when opening the tag of a kind (none when the kind has
no tag). -/
def openItems (k : Kind) : List Item :=
  match HIGHLIGHT_TAG k with
  | some _ => [Item.openT k]
  | none => []

/-- The loop of highlight, abstracted to the list of items it emits; same
control flow and state as highlightLoop. -/
def highlightItemsLoop {Token : Type} [DecidableEq Token] (L : Language Token) (source : Bytes) :
    List (Token × Nat × Nat) → Kind → Nat → Token × Token → List Item
  | [], opn, _, _ => closeItems opn
  | (token, s, e) :: rest, opn, last, w =>
    let w2 := shiftWindow L w token
    let kind := L.kind w2.1 w2.2
    if opn ≠ kind then
      closeItems opn ++ Item.text (slice source last s) :: (openItems kind ++
        Item.text (slice source s e) :: highlightItemsLoop L source rest kind e w2)
    else
      Item.text (slice source last e) :: highlightItemsLoop L source rest opn e w2

/-- The item stream of a whole highlight run. -/
def highlightItems {Token : Type} [DecidableEq Token] (L : Language Token)
    (lexed : List (Token × Nat × Nat)) (source : Bytes) : List Item :=
  highlightItemsLoop L source lexed Kind.None 0 (L.ERROR, L.ERROR)

/-- Bytes of one item: escaped text, or the open/close markup of the
kind's tag. -/
def renderItem : Item → Bytes
  | Item.text s => escapeSpec s
  | Item.openT k => openTagBytes k
  | Item.closeT k => closeTagBytes k

/-- Bytes of an item stream. -/
def renderItems : List Item → Bytes
  | [] => []
  | it :: rest => renderItem it ++ renderItems rest

/-- Concatenated unescaped source text of the runs of an item stream. -/
def textContent : List Item → Bytes
  | [] => []
  | Item.text s :: rest => s ++ textContent rest
  | Item.openT _ :: rest => textContent rest
  | Item.closeT _ :: rest => textContent rest

/-- Checker for well-formed tag structure of an item stream: st is the
currently open kind (none when no tag is open).  A stream is accepted only
if every opened tag is closed by a matching close tag before anything else
opens (so tags are balanced, never nested, never overlapping), opened tags
are real tags (not Kind.None), and nothing is open at the end. -/
def balancedRun : Option Kind → List Item → Bool
  | none, [] => true
  | some _, [] => false
  | st, Item.text _ :: rest => balancedRun st rest
  | none, Item.openT k :: rest => !(decide (k = Kind.None)) && balancedRun (some k) rest
  | some _, Item.openT _ :: _ => false
  | some k, Item.closeT k2 :: rest => decide (k = k2) && balancedRun none rest
  | none, Item.closeT _ :: _ => false

/-- The open-tag state corresponding to a loop kind: no tag is open when
the kind has no tag. -/
def openState (k : Kind) : Option Kind :=
  match HIGHLIGHT_TAG k with
  | some _ => some k
  | none => none

/-- Well-formedness of a lexer's span output, as guaranteed by logos:
starting from cursor last, each span [s, e) satisfies last ≤ s ≤ e and
ends within the source; spans are produced left to right. -/
def spansWF (source : Bytes) : Nat → List (α × Nat × Nat) → Bool
  | _, [] => true
  | last, (_, s, e) :: rest =>
    decide (last ≤ s) && decide (s ≤ e) && decide (e ≤ source.length) && spansWF source e rest

/-- End position of the last span in the list, or the default d when the
list is empty. -/
def lastEnd : List (α × Nat × Nat) → Nat → Nat
  | [], d => d
  | (_, _, e) :: rest, _ => lastEnd rest e

/-- The most recent token in ts that differs from the sentinel Token::ERROR,
or the sentinel when there is none. -/
def lastNonError {Token : Type} [DecidableEq Token] (L : Language Token) (ts : List Token) : Token :=
  List.foldl (fun acc t => if t ≠ L.ERROR then t else acc) L.ERROR ts

/-- Fuel-indexed version of highlightLoop: one unit of fuel is spent per
loop iteration (per token); none when the fuel runs out before the token
stream does.  Used to state that the loop terminates within one iteration
per token. -/
def highlightFuelLoop {Token : Type} [DecidableEq Token] (L : Language Token) (source : Bytes) :
    Nat → List (Token × Nat × Nat) → Kind → Nat → Token × Token → Bytes → Option Bytes
  | _, [], opn, _, _, buf => some (buf ++ closeTagBytes opn)
  | 0, _ :: _, _, _, _, _ => none
  | fuel + 1, (token, s, e) :: rest, opn, last, w, buf =>
    let w2 := shiftWindow L w token
    let kind := L.kind w2.1 w2.2
    if opn ≠ kind then
      highlightFuelLoop L source fuel rest kind e w2
        (write_escaped
          (write_escaped (buf ++ closeTagBytes opn) (slice source last s) ++ openTagBytes kind)
          (slice source s e))
    else
      highlightFuelLoop L source fuel rest opn e w2 (write_escaped buf (slice source last e))

/-- highlight with an explicit fuel bound on loop iterations. -/
def highlightFuel {Token : Type} [DecidableEq Token] (L : Language Token) (fuel : Nat)
    (lexed : List (Token × Nat × Nat)) (source : Bytes) (buf : Bytes) : Option Bytes :=
  highlightFuelLoop L source fuel lexed Kind.None 0 (L.ERROR, L.ERROR) buf

/-- A tiny concrete language over Nat tokens used for concrete instances:
the sentinel is 0 and every token classifies as Kind.None. -/
def NatLang : Language Nat := { ERROR := 0, kind := fun _ _ => Kind.None }

/-- pulldown_cmark's CodeBlockKind, as matched by src/lib.rs. -/
inductive CodeBlockKind where
  | Indented
  | Fenced (lang : Bytes)
deriving DecidableEq

/-- pulldown_cmark's Tag: the source only ever matches Tag::CodeBlock;
every other tag variant is collapsed into an opaque numbered variant. -/
inductive Tag where
  | CodeBlock (k : CodeBlockKind)
  | OtherTag (n : Nat)
deriving DecidableEq

/-- pulldown_cmark's Event: the source only ever matches Start, End and
Text, and produces Html; every other event variant is collapsed into an
opaque numbered variant. -/
inductive Event where
  | Start (t : Tag)
  | End (t : Tag)
  | Text (s : Bytes)
  | Html (s : Bytes)
  | OtherEvent (n : Nat)
deriving DecidableEq

/-- Modelled from the spec: the per-language tokenizer and classifier
definitions (src/languages/c.rs, javascript.rs, rust.rs, sh.rs, toml.rs)
are not under src; each field stands for the closed call
highlight::(languages::X)(code, buf) for that language, a function taking
the buffer and the code and returning the extended buffer. -/
structure Highlighters where
  rust : Bytes → Bytes → Bytes
  js : Bytes → Bytes → Bytes
  toml : Bytes → Bytes → Bytes
  sh : Bytes → Bytes → Bytes

/-- The code-block rendering of SyntaxPreprocessor::next in src/lib.rs:
push the container prefix with the language tag, dispatch on the exact
tag to a language highlighter (write_escaped for unrecognized tags), and
push the container suffix.  The latex2mathml feature is modelled as
disabled, so no tag bypasses this path. -/
def processCode (H : Highlighters) (lang code : Bytes) : Bytes :=
  let html0 := strBytes "<pre><code class=\"language-" ++ lang ++ strBytes "\">"
  let html1 :=
    if lang = strBytes "rust" ∨ lang = strBytes "rs" then H.rust html0 code
    else if lang = strBytes "js" ∨ lang = strBytes "javascript" then H.js html0 code
    else if lang = strBytes "toml" then H.toml html0 code
    else if lang = strBytes "sh" ∨ lang = strBytes "shell" ∨ lang = strBytes "bash" then
      H.sh html0 code
    else write_escaped html0 code
  html1 ++ strBytes "</code></pre>"

/-- The recognized highlighting vocabulary of the dispatch match in
SyntaxPreprocessor::next. -/
def recognizedLang (lang : Bytes) : Bool :=
  decide (lang ∈ [strBytes "rust", strBytes "rs", strBytes "js", strBytes "javascript",
    strBytes "toml", strBytes "sh", strBytes "shell", strBytes "bash"])

/-- Decimal digits of a number, for the diagnostic encoding. -/
def natBytes (n : Nat) : Bytes := strBytes (toString n)

/-- Textual encoding of a CodeBlockKind, standing for Rust's derived Debug
output. -/
def debugCBK : CodeBlockKind → Bytes
  | CodeBlockKind.Indented => strBytes "Indented"
  | CodeBlockKind.Fenced lang => strBytes "Fenced(" ++ lang ++ strBytes ")"

/-- Textual encoding of a Tag, standing for Rust's derived Debug output. -/
def debugTag : Tag → Bytes
  | Tag.CodeBlock k => strBytes "CodeBlock(" ++ debugCBK k ++ strBytes ")"
  | Tag.OtherTag n => strBytes "Tag(" ++ natBytes n ++ strBytes ")"

/-- Textual encoding of an Event, standing for Rust's derived Debug
output. -/
def debugEvent : Event → Bytes
  | Event.Start t => strBytes "Start(" ++ debugTag t ++ strBytes ")"
  | Event.End t => strBytes "End(" ++ debugTag t ++ strBytes ")"
  | Event.Text s => strBytes "Text(" ++ s ++ strBytes ")"
  | Event.Html s => strBytes "Html(" ++ s ++ strBytes ")"
  | Event.OtherEvent n => strBytes "Event(" ++ natBytes n ++ strBytes ")"

/-- Textual encoding of an optional Event. -/
def debugOptEvent : Option Event → Bytes
  | none => strBytes "None"
  | some e => strBytes "Some(" ++ debugEvent e ++ strBytes ")"

/-- The diagnostic payload of SyntaxPreprocessor::next on a protocol
violation, standing for format of the string Unexpected events with the
Debug rendering of the pulled event pair; it names both pulled events. -/
def diagMsg (e1 e2 : Option Event) : Bytes :=
  strBytes "Unexpected events (" ++ debugOptEvent e1 ++ strBytes ", " ++
    debugOptEvent e2 ++ strBytes ")"

/-- One call to Iterator::next on the upstream iterator, modelled as a
list: the pulled event (none when exhausted) and the remaining events. -/
def pull : List Event → Option Event × List Event
  | [] => (none, [])
  | e :: rest => (some e, rest)

/-- The event produced for a fenced code block from the two pulled events:
on the expected (text, code-block end) shape, the rendered Html event; on
any other shape, the diagnostic Text event.  This is the match on
next_events in SyntaxPreprocessor::next. -/
def codeBlockEvent (H : Highlighters) (lang : Bytes) :
    Option Event → Option Event → Event
  | some (Event.Text code), some (Event.End (Tag.CodeBlock _)) =>
    Event.Html (processCode H lang code)
  | e1, e2 => Event.Text (diagMsg e1 e2)

/-- The expected shape of the two events after a fenced code-block start:
a text payload followed by a code-block end. -/
def shapeOk : Event → Event → Bool
  | Event.Text _, Event.End (Tag.CodeBlock _) => true
  | _, _ => false

/-- Whether an event is the start of a fenced code block. -/
def isFencedStart : Event → Bool
  | Event.Start (Tag.CodeBlock (CodeBlockKind.Fenced _)) => true
  | _ => false

/-- Shorthand for the fenced code-block start event. -/
def fencedStart (lang : Bytes) : Event :=
  Event.Start (Tag.CodeBlock (CodeBlockKind.Fenced lang))

/-- SyntaxPreprocessor::next of src/lib.rs over the remaining upstream
event list: none when the upstream is exhausted; on a fenced code-block
start, pull the next two events and produce the code-block event; any
other event passes through unchanged. -/
def pnext (H : Highlighters) : List Event → Option (Event × List Event)
  | [] => none
  | ev :: rest =>
    match ev with
    | Event.Start (Tag.CodeBlock (CodeBlockKind.Fenced lang)) =>
      let p1 := pull rest
      let p2 := pull p1.2
      some (codeBlockEvent H lang p1.1 p2.1, p2.2)
    | other => some (other, rest)

/-- The remaining upstream events after one call to next (unchanged when
the upstream was already exhausted). -/
def nextRest (H : Highlighters) (evs : List Event) : List Event :=
  match pnext H evs with
  | none => evs
  | some (_, r) => r

/-- The produced event stream of repeated calls to next, with fuel
bounding the number of calls. -/
def runAll (H : Highlighters) : Nat → List Event → List Event
  | 0, _ => []
  | fuel + 1, evs =>
    match pnext H evs with
    | none => []
    | some (out, rest) => out :: runAll H fuel rest

/-- A property of a buffer-writing function: it appends to the buffer.
write_escaped and highlight have it. -/
def Appending (f : Bytes → Bytes → Bytes) : Prop :=
  ∀ buf code, f buf code = buf ++ f [] code

/-- Concrete highlighters for concrete instances: every language renders
by plain escaping. -/
def H0 : Highlighters :=
  { rust := write_escaped, js := write_escaped, toml := write_escaped, sh := write_escaped }

end CmarkSyntax

namespace CmarkSyntax

theorem slice_self (l : Bytes) (a : Nat) : slice l a a = [] := by
  simp [slice]

theorem slice_zero (l : Bytes) (n : Nat) : slice l 0 n = l.take n := by
  simp [slice]

theorem slice_append (l : Bytes) {a b c : Nat} (hab : a ≤ b) (hbc : b ≤ c) :
    slice l a b ++ slice l b c = slice l a c := by
  unfold slice
  have hc : c - a = (b - a) + (c - b) := by omega
  rw [hc, List.take_add]
  congr 1
  rw [List.drop_drop]
  congr 2
  omega

theorem slice_snoc (l : Bytes) {a b : Nat} (x : Nat) (xs : Bytes)
    (hab : a ≤ b) (hd : l.drop b = x :: xs) :
    slice l a (b + 1) = slice l a b ++ [x] := by
  unfold slice
  have hc : b + 1 - a = (b - a) + 1 := by omega
  rw [hc, List.take_add]
  congr 1
  rw [List.drop_drop]
  have hb : a + (b - a) = b := by omega
  rw [hb, hd]
  rfl

theorem write_escaped_go_spec (part : Bytes) :
    ∀ (tail : Bytes) (idx start : Nat) (s : Bytes),
      part.drop idx = tail → start ≤ idx →
      write_escaped_go part tail idx start s = s ++ slice part start idx ++ escapeSpec tail := by
  intro tail
  induction tail with
  | nil =>
    intro idx start s hdrop hle
    have hlen : part.length ≤ idx := by
      by_contra h
      have := List.drop_eq_nil_iff.mp hdrop
      omega
    have hs : slice part start idx = part.drop start := by
      unfold slice
      apply List.take_of_length_le
      simp
      omega
    simp [write_escaped_go, hs, escapeSpec]
  | cons b rest ih =>
    intro idx start s hdrop hle
    have hdrop1 : part.drop (idx + 1) = rest := by
      have : part.drop (idx + 1) = (part.drop idx).drop 1 := by
        rw [List.drop_drop]
      rw [this, hdrop]
      rfl
    cases hb : escapeByte b with
    | some replace =>
      rw [write_escaped_go, hb]
      simp only
      rw [ih (idx + 1) (idx + 1) _ hdrop1 (le_refl _)]
      rw [slice_self]
      simp [escapeSpec, hb, List.append_assoc]
    | none =>
      rw [write_escaped_go, hb]
      simp only
      rw [ih (idx + 1) start _ hdrop1 (Nat.le_succ_of_le hle)]
      rw [slice_snoc part b rest hle hdrop]
      simp [escapeSpec, hb, List.append_assoc]

/-- Key fact about write_escaped: it appends the escaped input to the
buffer. -/
theorem write_escaped_append (s part : Bytes) :
    write_escaped s part = s ++ escapeSpec part := by
  have := write_escaped_go_spec part part 0 0 s rfl (le_refl 0)
  rw [write_escaped, this, slice_self]
  simp

theorem renderItems_append (a b : List Item) :
    renderItems (a ++ b) = renderItems a ++ renderItems b := by
  induction a with
  | nil => simp [renderItems]
  | cons it rest ih => simp [renderItems, ih]

theorem renderItems_closeItems (k : Kind) :
    renderItems (closeItems k) = closeTagBytes k := by
  cases h : HIGHLIGHT_TAG k <;>
    simp [closeItems, closeTagBytes, renderItems, renderItem, h]

theorem renderItems_openItems (k : Kind) :
    renderItems (openItems k) = openTagBytes k := by
  cases h : HIGHLIGHT_TAG k <;>
    simp [openItems, openTagBytes, renderItems, renderItem, h]

/-- The highlighting loop writes to the buffer exactly the rendering of
its abstract item stream. -/
theorem highlightLoop_render {Token : Type} [DecidableEq Token] (L : Language Token)
    (source : Bytes) :
    ∀ (toks : List (Token × Nat × Nat)) (opn : Kind) (last : Nat) (w : Token × Token)
      (buf : Bytes),
      highlightLoop L source toks opn last w buf =
        buf ++ renderItems (highlightItemsLoop L source toks opn last w) := by
  intro toks
  induction toks with
  | nil =>
    intro opn last w buf
    simp [highlightLoop, highlightItemsLoop, renderItems_closeItems]
  | cons t ts ih =>
    rcases t with ⟨token, s, e⟩
    intro opn last w buf
    simp only [highlightLoop, highlightItemsLoop]
    by_cases h : opn = L.kind (shiftWindow L w token).1 (shiftWindow L w token).2
    · simp only [h, ne_eq, not_true_eq_false, if_neg, ite_false, not_false_iff]
      rw [ih, write_escaped_append]
      simp [renderItems, renderItem, List.append_assoc]
    · simp only [ne_eq, h, not_false_iff, ite_true, if_pos]
      rw [ih, write_escaped_append, write_escaped_append]
      simp [renderItems, renderItem, renderItems_append, renderItems_closeItems,
        renderItems_openItems, List.append_assoc]

/-- highlight writes to the buffer exactly the rendering of its item
stream. -/
theorem highlight_render {Token : Type} [DecidableEq Token] (L : Language Token)
    (lexed : List (Token × Nat × Nat)) (source : Bytes) (buf : Bytes) :
    highlight L lexed source buf = buf ++ renderItems (highlightItems L lexed source) := by
  rw [highlight, highlightItems, highlightLoop_render]

theorem textContent_closeItems (k : Kind) : textContent (closeItems k) = [] := by
  cases h : HIGHLIGHT_TAG k <;> simp [closeItems, textContent, h]

theorem textContent_openItems_cons (k : Kind) (l : List Item) :
    textContent (openItems k ++ l) = textContent l := by
  cases h : HIGHLIGHT_TAG k <;> simp [openItems, textContent, h]

theorem textContent_closeItems_cons (k : Kind) (l : List Item) :
    textContent (closeItems k ++ l) = textContent l := by
  cases h : HIGHLIGHT_TAG k <;> simp [closeItems, textContent, h]

theorem lastEnd_ge {α : Type} (source : Bytes) :
    ∀ (toks : List (α × Nat × Nat)) (last : Nat),
      spansWF source last toks = true → last ≤ lastEnd toks last := by
  intro toks
  induction toks with
  | nil => intro last _; exact le_refl _
  | cons t ts ih =>
    rcases t with ⟨a, s, e⟩
    intro last hwf
    simp only [spansWF, Bool.and_eq_true, decide_eq_true_eq] at hwf
    obtain ⟨⟨⟨h1, h2⟩, h3⟩, h4⟩ := hwf
    have he := ih e h4
    simp only [lastEnd]
    omega

theorem lastEnd_le {α : Type} (source : Bytes) :
    ∀ (toks : List (α × Nat × Nat)) (last : Nat),
      spansWF source last toks = true → last ≤ source.length →
      lastEnd toks last ≤ source.length := by
  intro toks
  induction toks with
  | nil => intro last _ h; exact h
  | cons t ts ih =>
    rcases t with ⟨a, s, e⟩
    intro last hwf hlen
    simp only [spansWF, Bool.and_eq_true, decide_eq_true_eq] at hwf
    obtain ⟨⟨⟨h1, h2⟩, h3⟩, h4⟩ := hwf
    exact ih e h4 h3

/-- The unescaped text content of the loop's item stream is exactly the
source slice from the cursor to the end of the last span. -/
theorem textContent_loop {Token : Type} [DecidableEq Token] (L : Language Token)
    (source : Bytes) :
    ∀ (toks : List (Token × Nat × Nat)) (opn : Kind) (last : Nat) (w : Token × Token),
      spansWF source last toks = true →
      textContent (highlightItemsLoop L source toks opn last w) =
        slice source last (lastEnd toks last) := by
  intro toks
  induction toks with
  | nil =>
    intro opn last w _
    simp [highlightItemsLoop, textContent_closeItems, lastEnd, slice_self]
  | cons t ts ih =>
    rcases t with ⟨token, s, e⟩
    intro opn last w hwf
    simp only [spansWF, Bool.and_eq_true, decide_eq_true_eq] at hwf
    obtain ⟨⟨⟨hls, hse⟩, hel⟩, hrest⟩ := hwf
    have hee : e ≤ lastEnd ts e := lastEnd_ge source ts e hrest
    simp only [highlightItemsLoop, lastEnd]
    by_cases h : opn = L.kind (shiftWindow L w token).1 (shiftWindow L w token).2
    · simp only [h, ne_eq, not_true_eq_false, ite_false]
      simp only [textContent]
      rw [ih _ e _ hrest]
      exact slice_append source (le_trans hls hse) hee
    · simp only [ne_eq, h, not_false_iff, ite_true]
      rw [textContent_closeItems_cons]
      simp only [textContent]
      rw [textContent_openItems_cons]
      simp only [textContent]
      rw [ih _ e _ hrest]
      rw [← List.append_assoc]
      rw [slice_append source hls hse]
      exact slice_append source (le_trans hls hse) hee

/-- Every kind other than Kind.None has a tag in the table. -/
theorem tag_none_iff (k : Kind) : HIGHLIGHT_TAG k = none ↔ k = Kind.None := by
  cases k <;> simp [HIGHLIGHT_TAG]

/-- The loop's item stream is a balanced, never-nested run of tags,
starting from the open state of the loop's current kind. -/
theorem balancedRun_loop {Token : Type} [DecidableEq Token] (L : Language Token)
    (source : Bytes) :
    ∀ (toks : List (Token × Nat × Nat)) (opn : Kind) (last : Nat) (w : Token × Token),
      balancedRun (openState opn) (highlightItemsLoop L source toks opn last w) = true := by
  intro toks
  induction toks with
  | nil =>
    intro opn last w
    simp only [highlightItemsLoop]
    cases h : HIGHLIGHT_TAG opn <;> simp [openState, closeItems, balancedRun, h]
  | cons t ts ih =>
    rcases t with ⟨token, s, e⟩
    intro opn last w
    simp only [highlightItemsLoop]
    by_cases h : opn = L.kind (shiftWindow L w token).1 (shiftWindow L w token).2
    · simp only [h, ne_eq, not_true_eq_false, ite_false]
      simp only [balancedRun]
      rw [← h]
      exact ih opn e _
    · simp only [ne_eq, h, not_false_iff, ite_true]
      have hksp := ih (L.kind (shiftWindow L w token).1 (shiftWindow L w token).2) e
        (shiftWindow L w token)
      cases hop : HIGHLIGHT_TAG opn with
      | some tagop =>
        cases hk : HIGHLIGHT_TAG (L.kind (shiftWindow L w token).1 (shiftWindow L w token).2) with
        | some tagk =>
          have hkn : ¬(L.kind (shiftWindow L w token).1 (shiftWindow L w token).2 = Kind.None) := by
            intro hc
            rw [hc] at hk
            simp [HIGHLIGHT_TAG] at hk
          simp only [openState, hop, hk, closeItems, openItems] at *
          simp [balancedRun, hkn, hksp]
        | none =>
          simp only [openState, hop, hk, closeItems, openItems] at *
          simp [balancedRun, hksp]
      | none =>
        cases hk : HIGHLIGHT_TAG (L.kind (shiftWindow L w token).1 (shiftWindow L w token).2) with
        | some tagk =>
          have hkn : ¬(L.kind (shiftWindow L w token).1 (shiftWindow L w token).2 = Kind.None) := by
            intro hc
            rw [hc] at hk
            simp [HIGHLIGHT_TAG] at hk
          simp only [openState, hop, hk, closeItems, openItems] at *
          simp [balancedRun, hkn, hksp]
        | none =>
          simp only [openState, hop, hk, closeItems, openItems] at *
          simp [balancedRun, hksp]

/-- Folding the window update over a token sequence ending in t leaves t
in slot 1 and, in slot 0, the most recent earlier value of slot 1 that was
not the sentinel. -/
theorem fold_shiftWindow {Token : Type} [DecidableEq Token] (L : Language Token) :
    ∀ (ts : List Token) (w : Token × Token) (t : Token),
      List.foldl (shiftWindow L) w (ts ++ [t]) =
        (List.foldl (fun acc u => if u ≠ L.ERROR then u else acc)
          (if w.2 ≠ L.ERROR then w.2 else w.1) ts, t) := by
  intro ts
  induction ts with
  | nil =>
    intro w t
    simp [shiftWindow]
  | cons u us ih =>
    intro w t
    simp only [List.cons_append, List.foldl_cons]
    rw [ih]
    simp only [shiftWindow]

/-- The fuel-indexed loop agrees with the loop whenever the fuel covers
one iteration per remaining token. -/
theorem highlightFuelLoop_eq {Token : Type} [DecidableEq Token] (L : Language Token)
    (source : Bytes) :
    ∀ (toks : List (Token × Nat × Nat)) (fuel : Nat) (opn : Kind) (last : Nat)
      (w : Token × Token) (buf : Bytes),
      toks.length ≤ fuel →
      highlightFuelLoop L source fuel toks opn last w buf =
        some (highlightLoop L source toks opn last w buf) := by
  intro toks
  induction toks with
  | nil =>
    intro fuel opn last w buf _
    cases fuel <;> simp [highlightFuelLoop, highlightLoop]
  | cons t ts ih =>
    rcases t with ⟨token, s, e⟩
    intro fuel opn last w buf hfuel
    cases fuel with
    | zero => simp at hfuel
    | succ f =>
      have hf : ts.length ≤ f := by
        simp at hfuel
        omega
      simp only [highlightFuelLoop, highlightLoop]
      by_cases h : opn = L.kind (shiftWindow L w token).1 (shiftWindow L w token).2
      · simp only [h, ne_eq, not_true_eq_false, ite_false]
        exact ih f _ _ _ _ hf
      · simp only [ne_eq, h, not_false_iff, ite_true]
        exact ih f _ _ _ _ hf

/-- write_escaped appends to the buffer. -/
theorem write_escaped_Appending : Appending write_escaped := by
  intro buf code
  rw [write_escaped_append, write_escaped_append]
  simp

/-- C2: for every input string, write_escaped appends to the buffer
exactly the input with each occurrence of the four characters lt, gt,
ampersand and double quote replaced by its HTML entity and every other
byte passed through verbatim in original order; escapeSpec is that
per-byte replacement map applied in order. -/
theorem c2_write_escaped (s part : Bytes) :
    write_escaped s part = s ++ escapeSpec part :=
  write_escaped_append s part

/-- C8: highlight is deterministic; two runs on equal lexer streams, equal
sources and equal buffers produce byte-identical output.  In this pure
embedding the classify function of the language is a pure function of the
two window tokens by construction. -/
theorem c8_deterministic {Token : Type} [DecidableEq Token] (L : Language Token)
    (lexed1 lexed2 : List (Token × Nat × Nat)) (src1 src2 buf1 buf2 : Bytes)
    (h1 : lexed1 = lexed2) (h2 : src1 = src2) (h3 : buf1 = buf2) :
    highlight L lexed1 src1 buf1 = highlight L lexed2 src2 buf2 := by
  subst h1
  subst h2
  subst h3
  rfl

/-- Witness for C8 at a concrete run. -/
theorem c8_witness :
    highlight NatLang [(1, 0, 1)] [97] [] = highlight NatLang [(1, 0, 1)] [97] [] :=
  c8_deterministic NatLang [(1, 0, 1)] [(1, 0, 1)] [97] [97] [] [] rfl rfl rfl

/-- C9: highlight terminates given a finite token stream: the loop needs
exactly one iteration per token, so the fuel-indexed loop already returns
the result of highlight whenever the fuel covers the token count. -/
theorem c9_terminates {Token : Type} [DecidableEq Token] (L : Language Token)
    (fuel : Nat) (lexed : List (Token × Nat × Nat)) (source buf : Bytes)
    (h : lexed.length ≤ fuel) :
    highlightFuel L fuel lexed source buf = some (highlight L lexed source buf) := by
  rw [highlightFuel, highlight]
  exact highlightFuelLoop_eq L source lexed fuel _ _ _ _ h

/-- Witness for C9 at a concrete run. -/
theorem c9_witness :
    highlightFuel NatLang 1 [(1, 0, 1)] [97] [] = some (highlight NatLang [(1, 0, 1)] [97] []) :=
  c9_terminates NatLang 1 [(1, 0, 1)] [97] [] (by decide)

/-- C4 amended: at the very start both window slots hold the sentinel; and
after consuming the tokens ts followed by t, slot 1 holds t (the most
recent token) and slot 0 holds the most recent token of ts that is not the
sentinel value Token::ERROR, or the sentinel if there is none.  (The claim
as frozen says slot 0 holds the token immediately before t; that fails
when the immediately preceding token is an error token, see the
counterexample.) -/
theorem c4_window_amended {Token : Type} [DecidableEq Token] (L : Language Token)
    (ts : List Token) (t : Token) :
    List.foldl (shiftWindow L) (L.ERROR, L.ERROR) ([] : List Token) = (L.ERROR, L.ERROR) ∧
    List.foldl (shiftWindow L) (L.ERROR, L.ERROR) (ts ++ [t]) = (lastNonError L ts, t) := by
  constructor
  · rfl
  · rw [fold_shiftWindow]
    simp [lastNonError]

/-- C4 counterexample: with sentinel token 0, after highlight's window
update consumes the tokens 1, 0, 2 in order, the token immediately before
the current token 2 is the (error) token 0, but slot 0 of the window holds
1, because the update refuses to shift an ERROR token into slot 0. -/
theorem c4_counterexample :
    (List.foldl (shiftWindow NatLang) (NatLang.ERROR, NatLang.ERROR) [1, 0, 2]).1 ≠ 0 := by
  decide

/-- C1 amended: for a well-formed lexer span stream whose last token ends
exactly at the end of the source, highlight's output is the rendering of
its run items, and concatenating the unescaped text of those runs in
order reproduces the original source exactly.  (Without the condition on
the last span, the runs reproduce only the source prefix up to the last
token's end: trailing trivia after the final token is dropped, see the
counterexample.) -/
theorem c1_partition_amended {Token : Type} [DecidableEq Token] (L : Language Token)
    (lexed : List (Token × Nat × Nat)) (source : Bytes)
    (hwf : spansWF source 0 lexed = true)
    (hend : lastEnd lexed 0 = source.length) :
    highlight L lexed source [] = renderItems (highlightItems L lexed source) ∧
    textContent (highlightItems L lexed source) = source := by
  constructor
  · simpa using highlight_render L lexed source []
  · rw [highlightItems, textContent_loop L source lexed Kind.None 0 _ hwf, hend, slice_zero,
      List.take_length]

/-- Witness for C1 (amended) at a concrete run: source bytes 97 32, one
token spanning the whole source. -/
theorem c1_partition_witness :
    spansWF ([97, 32] : Bytes) 0 [((1 : Nat), 0, 2)] = true ∧
    lastEnd [((1 : Nat), 0, 2)] 0 = ([97, 32] : Bytes).length ∧
    textContent (highlightItems NatLang [(1, 0, 2)] [97, 32]) = [97, 32] :=
  ⟨by decide, by decide,
    (c1_partition_amended NatLang [(1, 0, 2)] [97, 32] (by decide) (by decide)).2⟩

/-- C1 counterexample: source bytes 97 32 with a single well-formed token
spanning only the first byte.  The output of highlight is the single byte
97 and the concatenated run text is 97: the trailing trivia byte 32 is
dropped, so the runs do not reproduce the source. -/
theorem c1_partition_counterexample :
    spansWF ([97, 32] : Bytes) 0 [((1 : Nat), 0, 1)] = true ∧
    highlight NatLang [(1, 0, 1)] [97, 32] [] ≠ [97, 32] ∧
    textContent (highlightItems NatLang [(1, 0, 1)] [97, 32]) ≠ [97, 32] := by
  decide

/-- C3: for every source and every language, the item stream of highlight
is balanced — every opened tag kind is closed by a matching close before
anything else opens (so tags never nest and never overlap), only tagged
kinds open, and nothing remains open at the end — and the HTML string
produced by highlight is exactly the rendering of that item stream, whose
tag kinds map to the seven tag names of HIGHLIGHT_TAG. -/
theorem c3_balance {Token : Type} [DecidableEq Token] (L : Language Token)
    (lexed : List (Token × Nat × Nat)) (source : Bytes) :
    balancedRun none (highlightItems L lexed source) = true ∧
    highlight L lexed source [] = renderItems (highlightItems L lexed source) := by
  constructor
  · have h := balancedRun_loop L source lexed Kind.None 0 (L.ERROR, L.ERROR)
    simpa [openState, HIGHLIGHT_TAG, highlightItems] using h
  · simpa using highlight_render L lexed source []

/-- On any pulled pair that is not (text payload, code-block end), the
code-block event is the diagnostic text event naming both pulled
events. -/
theorem codeBlockEvent_not_ok (H : Highlighters) (lang : Bytes) (e1 e2 : Event)
    (h : shapeOk e1 e2 = false) :
    codeBlockEvent H lang (some e1) (some e2) = Event.Text (diagMsg (some e1) (some e2)) := by
  cases e1 <;> cases e2 <;> try rfl
  all_goals rename_i t
  all_goals cases t <;> simp_all [shapeOk, codeBlockEvent]

/-- C5 amended: one call to next consumes exactly min 3 (remaining)
upstream events whenever the first pulled event is a fenced code-block
start — recognized payload shape or not — and exactly 1 in the passthrough
case; the remaining upstream events are exactly the untouched suffix (drop
2 of the rest after a fenced start, the rest itself otherwise), so there
is no other side effect on the upstream.  (The claim as frozen says the
unrecognized-shape case consumes 1 event; the code consumes 3, see the
counterexample.) -/
theorem c5_consumption_amended (H : Highlighters) (e : Event) (rest : List Event) :
    nextRest H (e :: rest) = (if isFencedStart e = true then rest.drop 2 else rest) ∧
    (e :: rest).length - (nextRest H (e :: rest)).length =
      (if isFencedStart e = true then min 3 (rest.length + 1) else 1) := by
  have hdrop : ∀ l : List Event, (pull (pull l).2).2 = l.drop 2 := by
    intro l
    cases l with
    | nil => rfl
    | cons x l2 => cases l2 <;> rfl
  cases e with
  | Start t =>
    cases t with
    | CodeBlock k =>
      cases k with
      | Indented => simp [nextRest, pnext, isFencedStart]
      | Fenced lang =>
        have h1 : nextRest H (Event.Start (Tag.CodeBlock (CodeBlockKind.Fenced lang)) :: rest) =
            rest.drop 2 := by
          simp [nextRest, pnext, hdrop]
        refine ⟨by simp [h1, isFencedStart], ?_⟩
        rw [h1]
        simp only [isFencedStart, if_pos]
        simp [List.length_drop]
        omega
    | OtherTag n => simp [nextRest, pnext, isFencedStart]
  | End t => simp [nextRest, pnext, isFencedStart]
  | Text s => simp [nextRest, pnext, isFencedStart]
  | Html s => simp [nextRest, pnext, isFencedStart]
  | OtherEvent n => simp [nextRest, pnext, isFencedStart]

/-- C5 counterexample: a fenced code-block start followed by two events of
unrecognized shape consumes 3 upstream events, not 1: of the four events,
only one remains after the call. -/
theorem c5_counterexample :
    shapeOk (Event.OtherEvent 0) (Event.OtherEvent 1) = false ∧
    ([fencedStart [120], Event.OtherEvent 0, Event.OtherEvent 1, Event.OtherEvent 2].length -
        (nextRest H0 [fencedStart [120], Event.OtherEvent 0, Event.OtherEvent 1,
          Event.OtherEvent 2]).length) ≠ 1 := by
  decide

/-- C6: when a fenced code-block start is followed by two events that are
not exactly a text payload and a code-block end, next emits a single
diagnostic text event naming the two unexpected events (no panic: next is
total and returns a value), and the remaining events of the sequence are
processed by the subsequent calls unchanged. -/
theorem c6_malformed_recovery (H : Highlighters) (lang : Bytes) (e1 e2 : Event)
    (rest : List Event) (fuel : Nat) (h : shapeOk e1 e2 = false) :
    pnext H (fencedStart lang :: e1 :: e2 :: rest) =
      some (Event.Text (diagMsg (some e1) (some e2)), rest) ∧
    runAll H (fuel + 1) (fencedStart lang :: e1 :: e2 :: rest) =
      Event.Text (diagMsg (some e1) (some e2)) :: runAll H fuel rest := by
  have hP : pnext H (fencedStart lang :: e1 :: e2 :: rest) =
      some (codeBlockEvent H lang (some e1) (some e2), rest) := rfl
  have hC := codeBlockEvent_not_ok H lang e1 e2 h
  refine ⟨by rw [hP, hC], ?_⟩
  rw [runAll, hP, hC]

/-- Witness for C6 at a concrete malformed block. -/
theorem c6_witness :
    pnext H0 [fencedStart [120], Event.OtherEvent 0, Event.OtherEvent 1, Event.Text [97]] =
      some (Event.Text (diagMsg (some (Event.OtherEvent 0)) (some (Event.OtherEvent 1))),
        [Event.Text [97]]) ∧
    runAll H0 2 [fencedStart [120], Event.OtherEvent 0, Event.OtherEvent 1, Event.Text [97]] =
      Event.Text (diagMsg (some (Event.OtherEvent 0)) (some (Event.OtherEvent 1))) ::
        runAll H0 1 [Event.Text [97]] :=
  c6_malformed_recovery H0 [120] (Event.OtherEvent 0) (Event.OtherEvent 1)
    [Event.Text [97]] 1 (by decide)

/-- C7: highlighting a code text under a language tag outside the
recognized vocabulary produces, inside the code-block container, exactly
the HTML-escaped raw code text, with no highlight tags inserted.  (The
latex2mathml feature is modelled as disabled, so the reserved math tags
fall through to this same fallback and are not part of the vocabulary.) -/
theorem c7_fallback (H : Highlighters) (lang code : Bytes)
    (h : recognizedLang lang = false) :
    processCode H lang code =
      strBytes "<pre><code class=\"language-" ++ lang ++ strBytes "\">" ++
        escapeSpec code ++ strBytes "</code></pre>" := by
  simp only [recognizedLang, decide_eq_false_iff_not, List.mem_cons, List.not_mem_nil,
    or_false] at h
  push_neg at h
  obtain ⟨h1, h2, h3, h4, h5, h6, h7, h8⟩ := h
  simp [processCode, h1, h2, h3, h4, h5, h6, h7, h8, write_escaped_append, List.append_assoc]

/-- Witness for C7 at the unrecognized tag python and a code text holding
a lt character. -/
theorem c7_witness :
    recognizedLang (strBytes "python") = false ∧
    processCode H0 (strBytes "python") [60] =
      strBytes "<pre><code class=\"language-" ++ strBytes "python" ++ strBytes "\">" ++
        escapeSpec [60] ++ strBytes "</code></pre>" :=
  ⟨by decide, c7_fallback H0 (strBytes "python") [60] (by decide)⟩

/-- The prefix of an appended list is recovered by take. -/
theorem take_append_self (p q : Bytes) : (p ++ q).take p.length = p := by
  simp

/-- The prefix of a doubly appended list is recovered by take. -/
theorem take_append_mid (p x y : Bytes) : ((p ++ x) ++ y).take p.length = p := by
  rw [List.append_assoc]
  exact take_append_self _ _

/-- C10: the declared language tag is written byte-for-byte, unescaped,
into the class attribute of the emitted container: for appending
highlighter functions (as write_escaped and highlight are), the output of
processCode starts with the literal container prefix holding the raw tag
bytes, whatever bytes — including quote, lt and gt — the tag contains. -/
theorem c10_lang_unescaped (H : Highlighters) (lang code : Bytes)
    (hR : Appending H.rust) (hJ : Appending H.js) (hT : Appending H.toml)
    (hS : Appending H.sh) :
    (processCode H lang code).take
        (strBytes "<pre><code class=\"language-" ++ lang ++ strBytes "\">").length =
      strBytes "<pre><code class=\"language-" ++ lang ++ strBytes "\">" := by
  simp only [processCode]
  split_ifs with h1 h2 h3 h4
  · rw [hR]
    exact take_append_mid _ _ _
  · rw [hJ]
    exact take_append_mid _ _ _
  · rw [hT]
    exact take_append_mid _ _ _
  · rw [hS]
    exact take_append_mid _ _ _
  · rw [write_escaped_append]
    exact take_append_mid _ _ _

/-- Witness for C10 at a tag holding a double quote and a lt character:
the tag's escaping differs from the tag, yet the tag bytes appear
literally in the container prefix. -/
theorem c10_witness :
    escapeSpec [34, 60, 97] ≠ [34, 60, 97] ∧
    (processCode H0 [34, 60, 97] [120]).take
        (strBytes "<pre><code class=\"language-" ++ [34, 60, 97] ++ strBytes "\">").length =
      strBytes "<pre><code class=\"language-" ++ [34, 60, 97] ++ strBytes "\">" :=
  ⟨by decide, c10_lang_unescaped H0 [34, 60, 97] [120] write_escaped_Appending
    write_escaped_Appending write_escaped_Appending write_escaped_Appending⟩

end CmarkSyntax
